import Mathlib

/-!
Shallow embedding of the foodgram backend (Django REST API).

The database is modelled as lists of rows; each Django model class becomes a
Lean structure whose fields are the model's columns (foreign keys become the
referenced row's id).  Each HTTP handler from `api/views.py` becomes a pure
function from the relevant table(s) and request parameters to a status code
together with the updated table.  All functions are translated from the
source files under `backend/`.
-/

/-- HTTP status codes returned by the handlers in `api/views.py`. -/
inductive StatusCode
  | http201
  | http204
  | http400
  | http404
  deriving DecidableEq, Repr

/-- A row of the `Subscription` model (`users/models.py`): a directed pair of
user ids, `subscriber` follows `subscribing`. -/
structure Subscription where
  subscriber : Nat
  subscribing : Nat
  deriving DecidableEq, Repr

/-- `Subscription.objects.filter(subscriber=user, subscribing=author).exists()`. -/
def subscriptionExists (subs : List Subscription) (user author : Nat) : Bool :=
  subs.any (fun s => decide (s.subscriber = user ∧ s.subscribing = author))

/-- The POST branch of `CustomUserViewSet.subscribe` (`api/views.py`), after
`get_object_or_404` found the author and the `IsAuthenticated` permission let
the (authenticated) requester through: self-subscription gives 400,
`get_or_create` gives 400 when the row already exists and otherwise inserts
the row and gives 201. -/
def subscribePost (subs : List Subscription) (user author : Nat) :
    StatusCode × List Subscription :=
  if user = author then (.http400, subs)
  else if subscriptionExists subs user author then (.http400, subs)
  else (.http201, subs ++ [⟨user, author⟩])

/-- The DELETE branch of `CustomUserViewSet.subscribe` (`api/views.py`):
400 when no matching row exists, otherwise
`Subscription.objects.filter(...).delete()` removes every matching row
and the handler answers 204. -/
def subscribeDelete (subs : List Subscription) (user author : Nat) :
    StatusCode × List Subscription :=
  if subscriptionExists subs user author then
    (.http204,
      subs.filter (fun s => !(decide (s.subscriber = user ∧ s.subscribing = author))))
  else (.http400, subs)

/-- Counts of elements whose `BEq` test is preserved by a filter predicate are
unchanged by that filter. -/
theorem count_filter_of_pos {α : Type} [BEq α] [LawfulBEq α] {p : α → Bool} {a : α}
    (l : List α) (h : p a = true) : (l.filter p).count a = l.count a := by
  induction l with
  | nil => rfl
  | cons x xs ih =>
    by_cases hx : p x = true
    · simp [List.filter_cons, hx, List.count_cons, ih]
    · have hxa : ¬(x == a) = true := by
        intro hba
        exact hx (by rw [eq_of_beq hba]; exact h)
      simp [List.filter_cons, hx, List.count_cons, hxa, ih]

/-- C3: the subscribe POST handler performs an idempotency existence check and
a self-check.  When the requester equals the author, or a subscription from
the requester to the author already exists, it answers 400 and leaves the
subscription table unchanged; otherwise it appends exactly the one row
(requester, author) and answers 201. -/
theorem C3_subscribe_post (subs : List Subscription) (user author : Nat) :
    (user = author → subscribePost subs user author = (.http400, subs))
    ∧ (subscriptionExists subs user author = true →
        subscribePost subs user author = (.http400, subs))
    ∧ (user ≠ author → subscriptionExists subs user author = false →
        subscribePost subs user author = (.http201, subs ++ [⟨user, author⟩])) := by
  refine ⟨?_, ?_, ?_⟩
  · intro h; simp [subscribePost, h]
  · intro h
    by_cases hu : user = author
    · simp [subscribePost, hu]
    · simp [subscribePost, hu, h]
  · intro hu h
    simp [subscribePost, hu, h]

/-- Witness for C3 at a concrete input: user 0 subscribing to user 1 on an
empty table succeeds and inserts the single row. -/
theorem C3_subscribe_post_witness :
    subscribePost [] 0 1 = (.http201, [⟨0, 1⟩]) :=
  (C3_subscribe_post [] 0 1).2.2 (by decide) (by decide)

/-- C4: the subscribe DELETE handler answers 400 and leaves the table
unchanged when the subscription does not exist; when it exists it answers
204, afterwards no subscription from the requester to the author remains,
and the count of every other row is unchanged. -/
theorem C4_subscribe_delete (subs : List Subscription) (user author : Nat) :
    (subscriptionExists subs user author = false →
        subscribeDelete subs user author = (.http400, subs))
    ∧ (subscriptionExists subs user author = true →
        (subscribeDelete subs user author).1 = .http204
        ∧ subscriptionExists (subscribeDelete subs user author).2 user author = false
        ∧ ∀ s : Subscription, ¬(s.subscriber = user ∧ s.subscribing = author) →
            (subscribeDelete subs user author).2.count s = subs.count s) := by
  constructor
  · intro h; simp [subscribeDelete, h]
  · intro h
    refine ⟨by simp [subscribeDelete, h], ?_, ?_⟩
    · simp only [subscribeDelete, h, if_true]
      simp [subscriptionExists, List.any_eq_true, List.mem_filter]
      intro s _ hkeep hsub
      rcases hkeep with h1 | h2
      · exact absurd hsub h1
      · exact h2
    · intro s hs
      simp only [subscribeDelete, h, if_true]
      exact count_filter_of_pos subs (by simp [hs])

/-- Witness for C4 at a concrete input: deleting the only subscription
answers 204, removes it, and keeps unrelated rows. -/
theorem C4_subscribe_delete_witness :
    (subscribeDelete [⟨0, 1⟩] 0 1).1 = .http204
    ∧ subscriptionExists (subscribeDelete [⟨0, 1⟩] 0 1).2 0 1 = false
    ∧ (subscribeDelete [⟨0, 1⟩] 0 1).2.count ⟨2, 3⟩ = ([⟨0, 1⟩] : List Subscription).count ⟨2, 3⟩ := by
  have h := (C4_subscribe_delete [⟨0, 1⟩] 0 1).2 (by decide)
  exact ⟨h.1, h.2.1, h.2.2 ⟨2, 3⟩ (by decide)⟩

/-- Subscription tables reachable from the empty table through the subscribe
endpoint's POST and DELETE handlers. -/
inductive ReachableSubs : List Subscription → Prop
  | nil : ReachableSubs []
  | post (subs : List Subscription) (u a : Nat) :
      ReachableSubs subs → ReachableSubs (subscribePost subs u a).2
  | del (subs : List Subscription) (u a : Nat) :
      ReachableSubs subs → ReachableSubs (subscribeDelete subs u a).2

/-- C7: subscription is a directed follow relation.  The POST handler either
leaves the table unchanged or appends exactly the ordered pair
(requester, author) — in particular it never inserts the reversed pair — and
in every table reachable through the endpoint each ordered pair occurs at
most once. -/
theorem C7_subscription_directed :
    (∀ (subs : List Subscription) (u a : Nat),
        (subscribePost subs u a).2 = subs
        ∨ (subscribePost subs u a).2 = subs ++ [⟨u, a⟩])
    ∧ (∀ subs : List Subscription, ReachableSubs subs →
        ∀ p : Subscription, subs.count p ≤ 1) := by
  constructor
  · intro subs u a
    by_cases h1 : u = a
    · left; simp [subscribePost, h1]
    · by_cases h2 : subscriptionExists subs u a = true
      · left; simp [subscribePost, h1, h2]
      · right; simp [subscribePost, h1, h2]
  · intro subs hreach
    induction hreach with
    | nil => intro p; simp
    | post subs u a _ ih =>
      intro p
      by_cases h1 : u = a
      · simpa [subscribePost, h1] using ih p
      · by_cases h2 : subscriptionExists subs u a = true
        · simpa [subscribePost, h1, h2] using ih p
        · have hres : (subscribePost subs u a).2 = subs ++ [⟨u, a⟩] := by
            simp [subscribePost, h1, h2]
          rw [hres, List.count_append]
          by_cases hp : p = (⟨u, a⟩ : Subscription)
          · have hzero : subs.count p = 0 := by
              rw [List.count_eq_zero]
              intro hmem
              apply h2
              rw [subscriptionExists, List.any_eq_true]
              exact ⟨p, hmem, by simp [hp]⟩
            subst hp
            simp [hzero, List.count_cons]
          · have hne : (⟨u, a⟩ : Subscription) ≠ p := fun he => hp he.symm
            have hone : ([⟨u, a⟩] : List Subscription).count p = 0 := by
              simp [List.count_cons, hne]
            rw [hone]
            simpa using ih p
    | del subs u a _ ih =>
      intro p
      by_cases h : subscriptionExists subs u a = true
      · simp only [subscribeDelete, h, if_true]
        exact le_trans ((List.filter_sublist subs).count_le p) (ih p)
      · simpa [subscribeDelete, h] using ih p

/-- Witness for C7 at a concrete reachable table: after one successful
subscribe the inserted pair occurs at most once. -/
theorem C7_subscription_directed_witness :
    (subscribePost [] 0 1).2.count ⟨0, 1⟩ ≤ 1 :=
  C7_subscription_directed.2 (subscribePost [] 0 1).2
    (ReachableSubs.post [] 0 1 ReachableSubs.nil) ⟨0, 1⟩

/-- A row of the `Recipe` model (`recipes/models.py`) restricted to the
columns the favorite endpoint can observe: the primary key and the author's
user id. -/
structure Recipe where
  id : Nat
  author : Nat
  deriving DecidableEq, Repr

/-- A row of the `Favorites` model (`recipes/models.py`): a user bookmarks a
recipe. -/
structure Favorites where
  user : Nat
  recipe : Nat
  deriving DecidableEq, Repr

/-- `Favorites.objects.filter(user=user, recipe=recipe).exists()`. -/
def favoritesExists (favs : List Favorites) (user recipe : Nat) : Bool :=
  favs.any (fun f => decide (f.user = user ∧ f.recipe = recipe))

/-- The POST branch of `RecipeViewSet.favorite_recipe` (`api/views.py`):
`get_object_or_404` answers 404 when recipe `pk` does not exist; an existing
(user, recipe) favorite answers 400; otherwise the row is inserted and the
handler answers 201.  The recipe's author is never consulted. -/
def favoriteRecipePost (recipes : List Recipe) (favs : List Favorites)
    (user pk : Nat) : StatusCode × List Favorites :=
  match recipes.find? (fun r => decide (r.id = pk)) with
  | none => (.http404, favs)
  | some _ =>
    if favoritesExists favs user pk then (.http400, favs)
    else (.http201, favs ++ [⟨user, pk⟩])

/-- C2: the favorite POST handler performs an idempotency existence check.
When the recipe exists, a POST with the favorite already present answers 400
and leaves the favorites table unchanged, and a POST without it appends
exactly the one row (user, recipe) and answers 201. -/
theorem C2_favorite_post (recipes : List Recipe) (favs : List Favorites)
    (user pk : Nat) (hrec : ∃ r ∈ recipes, r.id = pk) :
    (favoritesExists favs user pk = true →
        favoriteRecipePost recipes favs user pk = (.http400, favs))
    ∧ (favoritesExists favs user pk = false →
        favoriteRecipePost recipes favs user pk = (.http201, favs ++ [⟨user, pk⟩])) := by
  have hfind : recipes.find? (fun r => decide (r.id = pk)) ≠ none := by
    rw [Ne, List.find?_eq_none]
    push_neg
    obtain ⟨r, hr, hid⟩ := hrec
    exact ⟨r, hr, by simp [hid]⟩
  constructor
  · intro h
    unfold favoriteRecipePost
    cases hf : recipes.find? (fun r => decide (r.id = pk)) with
    | none => exact absurd hf hfind
    | some r => simp [h]
  · intro h
    unfold favoriteRecipePost
    cases hf : recipes.find? (fun r => decide (r.id = pk)) with
    | none => exact absurd hf hfind
    | some r => simp [h]

/-- Witness for C2 at a concrete input: with recipe 1 present and an empty
favorites table, the POST inserts the single row and answers 201. -/
theorem C2_favorite_post_witness :
    favoriteRecipePost [⟨1, 5⟩] [] 0 1 = (.http201, [⟨0, 1⟩]) :=
  (C2_favorite_post [⟨1, 5⟩] [] 0 1 ⟨⟨1, 5⟩, by decide, rfl⟩).2 (by decide)

/-- C6 counterexample: the claim that a favorite POST succeeds only for
recipes of other authors is false.  With recipe 1 authored by user 0, a POST
by user 0 itself answers 201 and inserts the favorite: the handler never
consults the recipe's author. -/
theorem C6_favorite_own_recipe_counterexample :
    ¬ (∀ (recipes : List Recipe) (favs : List Favorites) (user pk : Nat),
        (favoriteRecipePost recipes favs user pk).1 = StatusCode.http201 →
        ∀ r ∈ recipes, r.id = pk → r.author ≠ user) := by
  intro h
  exact h [⟨1, 0⟩] [] 0 1 (by decide) ⟨1, 0⟩ (by decide) rfl rfl

/-- C6 amended: a favorite POST answers 201 exactly when the recipe exists
and the (user, recipe) favorite does not yet exist — independently of the
recipe's author, so a user can favorite their own recipe. -/
theorem C6_favorite_author_irrelevant (recipes : List Recipe)
    (favs : List Favorites) (user pk : Nat) :
    (favoriteRecipePost recipes favs user pk).1 = StatusCode.http201 ↔
      ((∃ r ∈ recipes, r.id = pk) ∧ favoritesExists favs user pk = false) := by
  unfold favoriteRecipePost
  cases hf : recipes.find? (fun r => decide (r.id = pk)) with
  | none =>
    have hno : ¬ ∃ r ∈ recipes, r.id = pk := by
      rw [List.find?_eq_none] at hf
      rintro ⟨r, hr, hid⟩
      exact hf r hr (by simp [hid])
    simp [hno]
  | some r =>
    have hmem : r ∈ recipes := List.mem_of_find?_eq_some hf
    have hid : r.id = pk := by simpa using List.find?_some hf
    by_cases hfav : favoritesExists favs user pk = true
    · simp [hfav]
    · simp [hfav]
      exact ⟨r, hmem, hid⟩

/-- A row of the `ShoppingList` model (`recipes/models.py`): a user puts a
recipe on their shopping list.  Unlike `Favorites`, the model's `Meta`
declares no `unique_together` constraint on (user, recipe). -/
structure ShoppingList where
  user : Nat
  recipe : Nat
  deriving DecidableEq, Repr

/-- `ShoppingList.objects.filter(user=user, recipe=recipe).exists()`. -/
def shoppingListExists (items : List ShoppingList) (user recipe : Nat) : Bool :=
  items.any (fun i => decide (i.user = user ∧ i.recipe = recipe))

/-- The POST branch of `RecipeViewSet.shopping_cart` (`api/views.py`), after
`get_object_or_404` found the recipe: 400 when (user, recipe) is already on
the list, otherwise the row is inserted and the handler answers 201. -/
def shoppingCartPost (items : List ShoppingList) (user recipe : Nat) :
    StatusCode × List ShoppingList :=
  if shoppingListExists items user recipe then (.http400, items)
  else (.http201, items ++ [⟨user, recipe⟩])

/-- The DELETE branch of `RecipeViewSet.shopping_cart` (`api/views.py`), after
`get_object_or_404` found the recipe: `filter(...).first()` is `None` exactly
when no row matches, giving 400; otherwise that single matching row instance
is deleted and the handler answers 204. -/
def shoppingCartDelete (items : List ShoppingList) (user recipe : Nat) :
    StatusCode × List ShoppingList :=
  if shoppingListExists items user recipe then
    (.http204, items.eraseP (fun i => decide (i.user = user ∧ i.recipe = recipe)))
  else (.http400, items)

/-- Shopping-list tables reachable from the empty table through the
shopping-cart endpoint's POST and DELETE handlers. -/
inductive ReachableCart : List ShoppingList → Prop
  | nil : ReachableCart []
  | post (items : List ShoppingList) (u r : Nat) :
      ReachableCart items → ReachableCart (shoppingCartPost items u r).2
  | del (items : List ShoppingList) (u r : Nat) :
      ReachableCart items → ReachableCart (shoppingCartDelete items u r).2

/-- A shopping-list row matching both columns is the pair itself. -/
theorem shoppingMatch_eq (i : ShoppingList) (u r : Nat)
    (h1 : i.user = u) (h2 : i.recipe = r) : i = ⟨u, r⟩ := by
  cases i
  simp_all

/-- The shopping-cart DELETE predicate tests `BEq` against the pair. -/
theorem shoppingPred_eq (u r : Nat) :
    (fun i : ShoppingList => decide (i.user = u ∧ i.recipe = r))
      = (fun i => (⟨u, r⟩ : ShoppingList) == i) := by
  funext i
  rw [Bool.eq_iff_iff]
  cases i with
  | mk iu ir =>
    simp only [decide_eq_true_eq, beq_iff_eq, ShoppingList.mk.injEq]
    constructor
    · rintro ⟨h1, h2⟩; exact ⟨h1.symm, h2.symm⟩
    · rintro ⟨h1, h2⟩; exact ⟨h1.symm, h2.symm⟩

/-- C8: although the `ShoppingList` model declares no uniqueness constraint
on (user, recipe), the shopping-cart endpoint preserves at most one entry per
(user, recipe) pair: every table reachable through the endpoint has no
duplicate rows, POST answers 400 without inserting when the entry exists and
otherwise inserts exactly it, and DELETE answers 400 leaving the table
unchanged when the entry is absent and otherwise answers 204, removes it, and
keeps every other row's count. -/
theorem C8_shopping_cart_unique :
    (∀ items : List ShoppingList, ReachableCart items →
        ∀ p : ShoppingList, items.count p ≤ 1)
    ∧ (∀ (items : List ShoppingList) (u r : Nat),
        shoppingListExists items u r = true →
          shoppingCartPost items u r = (.http400, items))
    ∧ (∀ (items : List ShoppingList) (u r : Nat),
        shoppingListExists items u r = false →
          shoppingCartPost items u r = (.http201, items ++ [⟨u, r⟩]))
    ∧ (∀ (items : List ShoppingList) (u r : Nat),
        shoppingListExists items u r = false →
          shoppingCartDelete items u r = (.http400, items))
    ∧ (∀ (items : List ShoppingList) (u r : Nat),
        (∀ p : ShoppingList, items.count p ≤ 1) →
        shoppingListExists items u r = true →
          (shoppingCartDelete items u r).1 = .http204
          ∧ shoppingListExists (shoppingCartDelete items u r).2 u r = false
          ∧ ∀ p : ShoppingList, ¬(p.user = u ∧ p.recipe = r) →
              (shoppingCartDelete items u r).2.count p = items.count p) := by
  have herase : ∀ (items : List ShoppingList) (u r : Nat),
      shoppingListExists items u r = true →
      (shoppingCartDelete items u r).2 = items.erase ⟨u, r⟩ := by
    intro items u r h
    simp only [shoppingCartDelete, h, if_true]
    rw [shoppingPred_eq, List.erase_eq_eraseP]
  refine ⟨?_, ?_, ?_, ?_, ?_⟩
  · intro items hreach
    induction hreach with
    | nil => intro p; simp
    | post items u r _ ih =>
      intro p
      by_cases h : shoppingListExists items u r = true
      · simpa [shoppingCartPost, h] using ih p
      · have hres : (shoppingCartPost items u r).2 = items ++ [⟨u, r⟩] := by
          simp [shoppingCartPost, h]
        rw [hres, List.count_append]
        by_cases hp : p = (⟨u, r⟩ : ShoppingList)
        · have hzero : items.count p = 0 := by
            rw [List.count_eq_zero]
            intro hmem
            apply h
            rw [shoppingListExists, List.any_eq_true]
            exact ⟨p, hmem, by simp [hp]⟩
          subst hp
          simp [hzero, List.count_cons]
        · have hne : (⟨u, r⟩ : ShoppingList) ≠ p := fun he => hp he.symm
          have hone : ([⟨u, r⟩] : List ShoppingList).count p = 0 := by
            simp [List.count_cons, hne]
          rw [hone]
          simpa using ih p
    | del items u r _ ih =>
      intro p
      by_cases h : shoppingListExists items u r = true
      · simp only [shoppingCartDelete, h, if_true]
        exact le_trans ((List.eraseP_sublist items).count_le p) (ih p)
      · simpa [shoppingCartDelete, h] using ih p
  · intro items u r h; simp [shoppingCartPost, h]
  · intro items u r h; simp [shoppingCartPost, h]
  · intro items u r h; simp [shoppingCartDelete, h]
  · intro items u r hinv h
    have hmem : (⟨u, r⟩ : ShoppingList) ∈ items := by
      rw [shoppingListExists, List.any_eq_true] at h
      obtain ⟨i, hi, hdec⟩ := h
      rw [decide_eq_true_eq] at hdec
      rwa [shoppingMatch_eq i u r hdec.1 hdec.2] at hi
    have hcount : items.count ⟨u, r⟩ = 1 := by
      have h1 : 1 ≤ items.count ⟨u, r⟩ := List.one_le_count_iff.mpr hmem
      exact le_antisymm (hinv ⟨u, r⟩) h1
    refine ⟨by simp [shoppingCartDelete, h], ?_, ?_⟩
    · rw [herase items u r h]
      have hnomem : (⟨u, r⟩ : ShoppingList) ∉ items.erase ⟨u, r⟩ := by
        rw [← List.count_eq_zero, List.count_erase_self, hcount]
      rw [shoppingListExists]
      rw [List.any_eq_false]
      intro i hi
      rw [decide_eq_true_eq]
      rintro ⟨h1, h2⟩
      exact hnomem (by rwa [shoppingMatch_eq i u r h1 h2] at hi)
    · intro p hp
      rw [herase items u r h]
      refine List.count_erase_of_ne ?_ items
      intro he
      exact hp (by rw [he]; exact ⟨rfl, rfl⟩)

/-- Witness for C8 at concrete inputs: inserting into the empty list answers
201, and deleting the single entry answers 204. -/
theorem C8_shopping_cart_unique_witness :
    (shoppingCartPost [] 0 1).2.count ⟨0, 1⟩ ≤ 1
    ∧ shoppingCartPost [] 0 1 = (.http201, [⟨0, 1⟩])
    ∧ (shoppingCartDelete [⟨0, 1⟩] 0 1).1 = .http204 := by
  refine ⟨?_, ?_, ?_⟩
  · exact C8_shopping_cart_unique.1 (shoppingCartPost [] 0 1).2
      (ReachableCart.post [] 0 1 ReachableCart.nil) ⟨0, 1⟩
  · exact C8_shopping_cart_unique.2.2.1 [] 0 1 (by decide)
  · exact (C8_shopping_cart_unique.2.2.2.2 [⟨0, 1⟩] 0 1
      (fun p => by simpa using List.count_le_length p [⟨0, 1⟩]) (by decide)).1

/-- A row of the `Ingredient` model (`recipes/models.py`): a named substance
with a measurement unit. -/
structure Ingredient where
  id : Nat
  name : String
  measurement_unit : String
  deriving DecidableEq, Repr

/-- A row of the `RecipeIngredient` model (`recipes/models.py`): recipe `r`
uses `amount` of ingredient `i` (foreign keys by id). -/
structure RecipeIngredient where
  recipe : Nat
  ingredient : Nat
  amount : Nat
  deriving DecidableEq, Repr

/-- The tables the shopping-cart download reads. -/
structure Database where
  ingredients : List Ingredient
  recipe_ingredients : List RecipeIngredient
  shopping_list : List ShoppingList
  deriving Repr

/-- The rows produced by joining the user's `ShoppingList` entries with
`recipe__recipe_ingredients__ingredient` as in the queryset of
`RecipeViewSet.download_shopping_cart`: one (name, measurement unit, amount)
triple per recipe-ingredient row of a recipe on the user's list. -/
def cartRows (db : Database) (u : Nat) : List (String × String × Nat) :=
  ((db.shopping_list.filter (fun s => decide (s.user = u))).map (fun s =>
    (db.recipe_ingredients.filter (fun ri => decide (ri.recipe = s.recipe))).filterMap
      (fun ri =>
        (db.ingredients.find? (fun ing => decide (ing.id = ri.ingredient))).map
          (fun ing => (ing.name, ing.measurement_unit, ri.amount))))).flatten

/-- The grouping keys of the queryset's `.values(...)` clause: the
(ingredient name, measurement unit) pair of each joined row. -/
def cartPairs (db : Database) (u : Nat) : List (String × String) :=
  (cartRows db u).map (fun row => (row.1, row.2.1))

/-- The queryset of `RecipeViewSet.download_shopping_cart`:
`.values(name, measurement_unit).annotate(amount=Sum('...amount'))` groups
the joined rows by (name, measurement unit) and sums the amounts within each
group, yielding one row per distinct pair. -/
def download_shopping_cart_agg (db : Database) (u : Nat) :
    List ((String × String) × Nat) :=
  (cartPairs db u).dedup.map (fun k =>
    (k, (((cartRows db u).filter (fun row => decide ((row.1, row.2.1) = k))).map
          (fun row => row.2.2)).sum))

/-- C1: the downloaded shopping-cart aggregation has exactly one entry per
distinct (ingredient name, measurement unit) pair occurring among the
recipes of the user's shopping list, and the amount of each entry is the sum
of the per-recipe ingredient amounts over all of the user's shopping-list
recipes carrying that pair. -/
theorem C1_shopping_aggregation (db : Database) (u : Nat) :
    ((download_shopping_cart_agg db u).map Prod.fst).Nodup
    ∧ (∀ p : String × String,
        p ∈ (download_shopping_cart_agg db u).map Prod.fst ↔ p ∈ cartPairs db u)
    ∧ (∀ (p : String × String) (total : Nat),
        (p, total) ∈ download_shopping_cart_agg db u →
        total = (((cartRows db u).filter
            (fun row => decide ((row.1, row.2.1) = p))).map
              (fun row => row.2.2)).sum) := by
  have hpairs : ∀ (l : List (String × String))
      (f : String × String → Nat),
      (l.map (fun k => (k, f k))).map Prod.fst = l := by
    intro l f
    induction l with
    | nil => rfl
    | cons x xs ih => simp [ih]
  have hkeys : (download_shopping_cart_agg db u).map Prod.fst
      = (cartPairs db u).dedup := by
    rw [download_shopping_cart_agg]
    exact hpairs _ _
  refine ⟨?_, ?_, ?_⟩
  · rw [hkeys]; exact List.nodup_dedup _
  · intro p
    rw [hkeys]
    exact List.mem_dedup
  · intro p total hmem
    unfold download_shopping_cart_agg at hmem
    obtain ⟨k, hk, heq⟩ := List.mem_map.mp hmem
    rw [Prod.mk.injEq] at heq
    obtain ⟨rfl, h2⟩ := heq
    exact h2.symm

/-- A row of the `CustomUser` model (`users/models.py`) restricted to the
columns the download handler reads; `str(user)` is the username. -/
structure CustomUser where
  id : Nat
  username : String
  deriving Repr

/-- The parts of the Django `HttpResponse` the download handler sets: the
body (a list of strings is concatenated), the `content_type` argument, and
the `Content-Disposition` header. -/
structure HttpResponseModel where
  body : String
  content_type : String
  content_disposition : String
  deriving Repr

/-- Concatenation of the response's string list, as `HttpResponse` renders a
list body. -/
def concatStrings : List String → String
  | [] => ""
  | s :: rest => s ++ concatStrings rest

/-- One report line of `download_shopping_cart`:
`f'{name} - {amount} {unit}\n'`. -/
def reportLine (e : (String × String) × Nat) : String :=
  e.1.1 ++ " - " ++ toString e.2 ++ " " ++ e.1.2 ++ "\n"

/-- The `shopping_cart` list built by `RecipeViewSet.download_shopping_cart`:
it starts from the header `f'Список покупок {user}.\n'` and the loop appends
one `reportLine` per aggregated ingredient. -/
def shoppingCartReportLines (db : Database) (user : CustomUser) : List String :=
  (download_shopping_cart_agg db user.id).foldl
    (fun acc e => acc ++ [reportLine e])
    ["Список покупок " ++ user.username ++ ".\n"]

/-- `RecipeViewSet.download_shopping_cart` (`api/views.py`): the response is
the concatenated report with content type `text/plain` and a
`Content-Disposition` attachment header naming
`f'{user.username}_shopping_cart.txt'`. -/
def download_shopping_cart (db : Database) (user : CustomUser) :
    HttpResponseModel :=
  ⟨concatStrings (shoppingCartReportLines db user),
   "text/plain",
   "attachment; filename=" ++ user.username ++ "_shopping_cart.txt"⟩

/-- Pushing elements one by one onto an accumulator list folds to the
accumulator followed by the mapped list. -/
theorem foldl_push_eq_append {α β : Type} (f : α → β) (l : List α) :
    ∀ start : List β,
      l.foldl (fun acc e => acc ++ [f e]) start = start ++ l.map f := by
  induction l with
  | nil => intro start; simp
  | cons x xs ih =>
    intro start
    rw [List.foldl_cons, ih (start ++ [f x]), List.map_cons, List.append_assoc]
    rfl

/-- C5: the shopping-list export is a flat-text report.  The body is the
header line naming the user followed by one line per aggregated ingredient
of the form `name - amount unit`, the content type is `text/plain`, and the
attachment filename is the username suffixed with `_shopping_cart.txt`. -/
theorem C5_report_format (db : Database) (user : CustomUser) :
    (download_shopping_cart db user).content_type = "text/plain"
    ∧ (download_shopping_cart db user).content_disposition =
        "attachment; filename=" ++ (user.username ++ "_shopping_cart.txt")
    ∧ (download_shopping_cart db user).body =
        ("Список покупок " ++ user.username ++ ".\n")
          ++ concatStrings ((download_shopping_cart_agg db user.id).map
              reportLine) := by
  refine ⟨rfl, ?_, ?_⟩
  · show "attachment; filename=" ++ user.username ++ "_shopping_cart.txt" = _
    rw [String.append_assoc]
  · show concatStrings (shoppingCartReportLines db user) = _
    rw [shoppingCartReportLines, foldl_push_eq_append]
    rfl

/-- One element of the ingredients payload of `RecipeWriteSerializer`: the
values of `ingredient_data.get('id')` and `ingredient_data.get('amount')`,
the latter possibly absent. -/
structure IngredientAmount where
  id : Nat
  amount : Option Int
  deriving DecidableEq, Repr

/-- The loop of `validate_tags` (`api/validation.py`): walk the tag ids with
the set of already-seen ids, failing on a repeated id. -/
def validateTagsGo : List Nat → List Nat → Bool
  | [], _ => true
  | t :: rest, seen =>
    if seen.contains t then false
    else validateTagsGo rest (t :: seen)

/-- `validate_tags` (`api/validation.py`): an empty tag list or a repeated
tag id raises a validation error. -/
def validate_tags (tags : List Nat) : Bool :=
  if tags.isEmpty then false else validateTagsGo tags []

/-- The loop of `validate_ingredients` (`api/validation.py`): failing on a
repeated ingredient id, a missing amount, or an amount below 1. -/
def validateIngredientsGo : List IngredientAmount → List Nat → Bool
  | [], _ => true
  | ing :: rest, seen =>
    if seen.contains ing.id then false
    else
      match ing.amount with
      | none => false
      | some a => if a < 1 then false else validateIngredientsGo rest (ing.id :: seen)

/-- `validate_ingredients` (`api/validation.py`): an empty ingredient list, a
repeated ingredient id, or a missing or sub-1 amount raises a validation
error. -/
def validate_ingredients (ings : List IngredientAmount) : Bool :=
  if ings.isEmpty then false else validateIngredientsGo ings []

/-- The payload fields `RecipeWriteSerializer.validate` inspects:
`data.get('tags', [])` and `data.get('ingredients', [])`. -/
structure RecipeWriteData where
  tags : List Nat
  ingredients : List IngredientAmount
  deriving DecidableEq, Repr

/-- `RecipeWriteSerializer.validate` (`api/serializers.py`): both validators
must accept the payload. -/
def recipeWriteValidate (d : RecipeWriteData) : Bool :=
  validate_tags d.tags && validate_ingredients d.ingredients

/-- The serializer save flow on create and update: a payload failing
`validate` raises, so nothing is stored; an accepted payload is stored. -/
def recipeWriteSave (stored : List RecipeWriteData) (d : RecipeWriteData) :
    Option (List RecipeWriteData) :=
  if recipeWriteValidate d then some (stored ++ [d]) else none

/-- The tag loop accepts exactly the duplicate-free lists disjoint from the
already-seen ids. -/
theorem validateTagsGo_iff (tags : List Nat) :
    ∀ seen : List Nat, validateTagsGo tags seen = true ↔
      (tags.Nodup ∧ ∀ t ∈ tags, t ∉ seen) := by
  induction tags with
  | nil => intro seen; simp [validateTagsGo]
  | cons t rest ih =>
    intro seen
    by_cases h : seen.contains t = true
    · have ht : t ∈ seen := by simpa using h
      rw [validateTagsGo, if_pos h]
      simp only [Bool.false_eq_true, false_iff]
      rintro ⟨-, hall⟩
      exact hall t (List.mem_cons_self t rest) ht
    · have ht : t ∉ seen := by simpa using h
      rw [validateTagsGo, if_neg h, ih (t :: seen)]
      constructor
      · rintro ⟨hnd, hall⟩
        refine ⟨List.nodup_cons.mpr ⟨?_, hnd⟩, ?_⟩
        · intro htr
          exact hall t htr (List.mem_cons_self t seen)
        · intro x hx
          rcases List.mem_cons.mp hx with rfl | hx2
          · exact ht
          · intro hxs
            exact hall x hx2 (List.mem_cons_of_mem t hxs)
      · rintro ⟨hnd, hall⟩
        obtain ⟨htn, hrest⟩ := List.nodup_cons.mp hnd
        refine ⟨hrest, ?_⟩
        intro x hx hxts
        rcases List.mem_cons.mp hxts with rfl | hxs
        · exact htn hx
        · exact hall x (List.mem_cons_of_mem t hx) hxs

/-- The ingredient loop accepts exactly the payloads with duplicate-free ids
disjoint from the already-seen ids and an amount of at least 1 on every
element. -/
theorem validateIngredientsGo_iff (l : List IngredientAmount) :
    ∀ seen : List Nat, validateIngredientsGo l seen = true ↔
      ((l.map IngredientAmount.id).Nodup
       ∧ (∀ i ∈ l, i.id ∉ seen)
       ∧ ∀ i ∈ l, ∃ a : Int, i.amount = some a ∧ 1 ≤ a) := by
  induction l with
  | nil => intro seen; simp [validateIngredientsGo]
  | cons ing rest ih =>
    intro seen
    by_cases h : seen.contains ing.id = true
    · have ht : ing.id ∈ seen := by simpa using h
      rw [validateIngredientsGo, if_pos h]
      simp only [Bool.false_eq_true, false_iff]
      rintro ⟨-, hseen, -⟩
      exact hseen ing (List.mem_cons_self ing rest) ht
    · have ht : ing.id ∉ seen := by simpa using h
      rw [validateIngredientsGo, if_neg h]
      cases hamt : ing.amount with
      | none =>
        simp only [Bool.false_eq_true, false_iff]
        rintro ⟨-, -, hok⟩
        obtain ⟨a, ha, -⟩ := hok ing (List.mem_cons_self ing rest)
        rw [hamt] at ha
        cases ha
      | some a =>
        show (if a < 1 then false
          else validateIngredientsGo rest (ing.id :: seen)) = true ↔ _
        by_cases ha1 : a < 1
        · rw [if_pos ha1]
          simp only [Bool.false_eq_true, false_iff]
          rintro ⟨-, -, hok⟩
          obtain ⟨b, hb, hb1⟩ := hok ing (List.mem_cons_self ing rest)
          rw [hamt] at hb
          cases hb
          omega
        · rw [if_neg ha1, ih (ing.id :: seen)]
          constructor
          · rintro ⟨hnd, hseen, hok⟩
            refine ⟨?_, ?_, ?_⟩
            · rw [List.map_cons, List.nodup_cons]
              refine ⟨?_, hnd⟩
              intro hmem
              obtain ⟨j, hj, hjid⟩ := List.mem_map.mp hmem
              exact hseen j hj (hjid ▸ List.mem_cons_self ing.id seen)
            · intro i hi
              rcases List.mem_cons.mp hi with rfl | hi2
              · exact ht
              · intro his
                exact hseen i hi2 (List.mem_cons_of_mem ing.id his)
            · intro i hi
              rcases List.mem_cons.mp hi with rfl | hi2
              · exact ⟨a, hamt, by omega⟩
              · exact hok i hi2
          · rintro ⟨hnd, hseen, hok⟩
            rw [List.map_cons, List.nodup_cons] at hnd
            obtain ⟨hhead, hrest⟩ := hnd
            refine ⟨hrest, ?_, ?_⟩
            · intro i hi his
              rcases List.mem_cons.mp his with heq | his2
              · exact hhead (heq ▸ List.mem_map_of_mem IngredientAmount.id hi)
              · exact hseen i (List.mem_cons_of_mem ing hi) his2
            · intro i hi
              exact hok i (List.mem_cons_of_mem ing hi)

/-- `validate_tags` accepts exactly the non-empty duplicate-free tag lists. -/
theorem validate_tags_iff (tags : List Nat) :
    validate_tags tags = true ↔ (tags ≠ [] ∧ tags.Nodup) := by
  rw [validate_tags]
  by_cases h : tags.isEmpty = true
  · rw [if_pos h]
    have hnil : tags = [] := by simpa using h
    simp [hnil]
  · rw [if_neg h]
    have hne : tags ≠ [] := by
      intro hnil
      exact h (by simp [hnil])
    rw [validateTagsGo_iff tags []]
    simp [hne]

/-- `validate_ingredients` accepts exactly the non-empty payloads with
duplicate-free ingredient ids whose every amount is present and at least 1. -/
theorem validate_ingredients_iff (ings : List IngredientAmount) :
    validate_ingredients ings = true ↔
      (ings ≠ [] ∧ (ings.map IngredientAmount.id).Nodup
       ∧ ∀ i ∈ ings, ∃ a : Int, i.amount = some a ∧ 1 ≤ a) := by
  rw [validate_ingredients]
  by_cases h : ings.isEmpty = true
  · rw [if_pos h]
    have hnil : ings = [] := by simpa using h
    simp [hnil]
  · rw [if_neg h]
    have hne : ings ≠ [] := by
      intro hnil
      exact h (by simp [hnil])
    rw [validateIngredientsGo_iff ings []]
    simp [hne]

/-- C9: a recipe payload is accepted by the write serializer exactly when its
tag list is non-empty and duplicate-free, its ingredient list is non-empty
with duplicate-free ingredient ids, and every ingredient amount is present
and at least 1; a rejected payload stores nothing, an accepted payload is
stored. -/
theorem C9_recipe_validation (stored : List RecipeWriteData)
    (d : RecipeWriteData) :
    (recipeWriteValidate d = true ↔
      (d.tags ≠ [] ∧ d.tags.Nodup
       ∧ d.ingredients ≠ []
       ∧ (d.ingredients.map IngredientAmount.id).Nodup
       ∧ ∀ i ∈ d.ingredients, ∃ a : Int, i.amount = some a ∧ 1 ≤ a))
    ∧ (recipeWriteValidate d = false → recipeWriteSave stored d = none)
    ∧ (recipeWriteValidate d = true →
        recipeWriteSave stored d = some (stored ++ [d])) := by
  refine ⟨?_, ?_, ?_⟩
  · rw [recipeWriteValidate, Bool.and_eq_true, validate_tags_iff,
      validate_ingredients_iff]
    constructor
    · rintro ⟨⟨h1, h2⟩, h3, h4, h5⟩
      exact ⟨h1, h2, h3, h4, h5⟩
    · rintro ⟨h1, h2, h3, h4, h5⟩
      exact ⟨⟨h1, h2⟩, h3, h4, h5⟩
  · intro h; simp [recipeWriteSave, h]
  · intro h; simp [recipeWriteSave, h]

/-- Witness for C9 at a concrete input: a payload with one tag and one
ingredient of amount 3 is accepted and stored. -/
theorem C9_recipe_validation_witness :
    recipeWriteSave [] ⟨[1], [⟨2, some 3⟩]⟩ = some [⟨[1], [⟨2, some 3⟩]⟩] :=
  (C9_recipe_validation [] ⟨[1], [⟨2, some 3⟩]⟩).2.2 (by decide)

/-- `CustomUserSerializer.get_is_subscribed` (`api/serializers.py`) for an
authenticated serialized user: `user.subscriptions` — the rows whose
subscriber is the serialized user — filtered again by `subscriber=user`, then
tested non-empty with `.exists()`.  The requesting user from the serializer
context is in scope but never read. -/
def get_is_subscribed (subs : List Subscription) (requester : Nat)
    (user : Nat) : Bool :=
  !((subs.filter (fun s => decide (s.subscriber = user))).filter
      (fun s => decide (s.subscriber = user))).isEmpty

/-- C10: the serialized `is_subscribed` field does not depend on the
requesting user, and it is true exactly when the serialized user has at
least one outgoing subscription. -/
theorem C10_is_subscribed_requester_independent (subs : List Subscription)
    (r1 r2 user : Nat) :
    get_is_subscribed subs r1 user = get_is_subscribed subs r2 user
    ∧ (get_is_subscribed subs r1 user = true ↔
        ∃ s ∈ subs, s.subscriber = user) := by
  refine ⟨rfl, ?_⟩
  rw [get_is_subscribed]
  constructor
  · intro h
    rw [Bool.not_eq_true', List.isEmpty_eq_false] at h
    obtain ⟨s, hs⟩ := List.exists_mem_of_ne_nil _ h
    have hs1 := List.mem_filter.mp hs
    have hs2 := List.mem_filter.mp hs1.1
    exact ⟨s, hs2.1, by simpa using hs2.2⟩
  · rintro ⟨s, hs, hsub⟩
    have hmem : s ∈ (subs.filter (fun s => decide (s.subscriber = user))).filter
        (fun s => decide (s.subscriber = user)) :=
      List.mem_filter.mpr
        ⟨List.mem_filter.mpr ⟨hs, by simp [hsub]⟩, by simp [hsub]⟩
    rw [Bool.not_eq_true', List.isEmpty_eq_false]
    exact List.ne_nil_of_mem hmem
